import Mathlib

/-!
Verification of the debounce scheduler of src/utils.js (the `debounce`
function, lines 156-310), against its natural-language specification.

Shallow embedding conventions:
- Times are integer milliseconds (`Int`); the wall clock is threaded
  explicitly, so every entry point takes the current time as an argument.
- The single logical timer of the closure (`timerId` together with the
  one-shot wake-up it identifies) is modelled as the absolute time at
  which the armed wake-up will fire (`timerFire`).  The separate
  outstanding-handle pool of the host (`setTimeout` and
  `requestAnimationFrame` handles) is modelled on its own for the claims
  about the timer backend.
- The target operation is a pure function `op : Option Args -> Ret`;
  applying it to `none` models `func.apply(thisArg, undefined)`, the call
  the source makes when `lastArgs` is `undefined`.
- Each synchronous entry point returns, next to the successor state, the
  value handed back to the caller (`none` models returning `undefined`)
  and the list of invocations of `op` it performed.
-/

namespace DebounceSpec

/-- Configuration computed by `debounce(func, wait, options)` from `wait`
and `options` (utils.js lines 156-177): `wait` holds `timeToWait`,
`maxing` records whether `maxWait` was present in the options, and
`maxWait` holds the clamped value `Math.max(+options.maxWait || 0,
timeToWait)` (meaningful only when `maxing` is true; the source leaves the
variable `undefined` otherwise, and only reads it under `maxing`). -/
structure Config where
  wait : Int
  leading : Bool
  maxing : Bool
  maxWait : Int
  trailing : Bool
deriving DecidableEq

/-- Mutable closure state of `debounce`: `lastArgs`, `result`, the timer
(`timerId` as the absolute fire time of the armed wake-up),
`lastCallTime` and `lastInvokeTime` (utils.js line 157-159).
`lastThis` is not modelled; `op` is pure. -/
structure DState (Args Ret : Type) where
  lastArgs : Option Args
  result : Option Ret
  timerFire : Option Int
  lastCallTime : Option Int
  lastInvokeTime : Int
deriving DecidableEq

/-- Initial closure state: everything absent, `lastInvokeTime = 0`. -/
def initState {Args Ret : Type} : DState Args Ret := ⟨none, none, none, none, 0⟩

/-- Outcome of one synchronous entry point: the state afterwards, the
value returned to the caller, and the invocations of `op` it performed,
in order, as (time, arguments) pairs. -/
structure StepOut (Args Ret : Type) where
  state : DState Args Ret
  ret : Option Ret
  invs : List (Int × Option Args)
deriving DecidableEq

variable {Args Ret : Type}

/-- Lines 226-239 (`shouldInvoke`): first call ever, quiet period elapsed,
clock regression, or the `maxWait` ceiling reached. -/
def shouldInvoke (cfg : Config) (s : DState Args Ret) (time : Int) : Bool :=
  match s.lastCallTime with
  | none => true
  | some lastCallTime =>
      let timeSinceLastCall := time - lastCallTime
      let timeSinceLastInvoke := time - s.lastInvokeTime
      decide (cfg.wait ≤ timeSinceLastCall) || decide (timeSinceLastCall < 0) ||
        (cfg.maxing && decide (cfg.maxWait ≤ timeSinceLastInvoke))

/-- Lines 179-189 (`invokeFunc`): consume `lastArgs`, stamp
`lastInvokeTime`, record the result. -/
def invokeFunc (op : Option Args → Ret) (s : DState Args Ret) (time : Int) : StepOut Args Ret :=
  let args := s.lastArgs
  let r := op args
  ⟨{ s with lastArgs := none, lastInvokeTime := time, result := some r }, some r, [(time, args)]⟩

/-- Lines 207-214 (`leadingEdge`): reset the `maxWait` base, arm the
trailing wake-up `timeToWait` from now, invoke only when `leading`. -/
def leadingEdge (cfg : Config) (op : Option Args → Ret) (s : DState Args Ret) (time : Int) :
    StepOut Args Ret :=
  let s := { s with lastInvokeTime := time, timerFire := some (time + cfg.wait) }
  if cfg.leading then invokeFunc op s time else ⟨s, s.result, []⟩

/-- Lines 216-224 (`remainingWait`).  The source reads `lastCallTime`
without a guard; every caller reaches it only with `lastCallTime` set
(`shouldInvoke` is true whenever it is absent), so the `getD 0` default is
never exercised on the paths embedded here. -/
def remainingWait (cfg : Config) (s : DState Args Ret) (time : Int) : Int :=
  let timeSinceLastCall := time - s.lastCallTime.getD 0
  let timeSinceLastInvoke := time - s.lastInvokeTime
  let timeWaiting := cfg.wait - timeSinceLastCall
  if cfg.maxing then min timeWaiting (cfg.maxWait - timeSinceLastInvoke) else timeWaiting

/-- Lines 251-262 (`trailingEdge`): drop the timer, invoke with the
pending arguments when `trailing` is set and some call was debounced,
otherwise just clear them.  `lastCallTime` is left as it is. -/
def trailingEdge (cfg : Config) (op : Option Args → Ret) (s : DState Args Ret) (time : Int) :
    StepOut Args Ret :=
  let s := { s with timerFire := none }
  if cfg.trailing && s.lastArgs.isSome then invokeFunc op s time
  else ⟨{ s with lastArgs := none }, s.result, []⟩

/-- Lines 242-249 (`timerExpired`): at wake-up either take the trailing
edge or re-arm for the remaining wait. -/
def timerExpired (cfg : Config) (op : Option Args → Ret) (s : DState Args Ret) (time : Int) :
    StepOut Args Ret :=
  if shouldInvoke cfg s time then trailingEdge cfg op s time
  else ⟨{ s with timerFire := some (time + remainingWait cfg s time) }, none, []⟩

/-- Lines 264-272 (`cancel`): drop the timer, zero `lastInvokeTime`,
clear `lastArgs` and `lastCallTime`; `result` is not touched and `op` is
not called. -/
def cancel (s : DState Args Ret) : StepOut Args Ret :=
  let s := { s with timerFire := none }
  let s := { s with lastInvokeTime := 0 }
  let s := { s with lastArgs := none, lastCallTime := none }
  ⟨s, none, []⟩

/-- Lines 274-276 (`flush`): return `result` when idle, otherwise run the
trailing edge at the current time. -/
def flush (cfg : Config) (op : Option Args → Ret) (s : DState Args Ret) (now : Int) :
    StepOut Args Ret :=
  if s.timerFire.isNone then ⟨s, s.result, []⟩ else trailingEdge cfg op s now

/-- Lines 278-280 (`pending`). -/
def pending (s : DState Args Ret) : Bool := s.timerFire.isSome

/-- Lines 282-303 (`debounced`): the callable front end.  Record the call,
then: leading edge when idle and due; immediate invocation with a re-armed
timer when pending, due and `maxing` (the tight-loop branch); otherwise
arm the timer if idle and return the last result. -/
def debounced (cfg : Config) (op : Option Args → Ret) (s : DState Args Ret) (time : Int)
    (args : Args) : StepOut Args Ret :=
  let isInvoking := shouldInvoke cfg s time
  let s := { s with lastArgs := some args, lastCallTime := some time }
  if isInvoking && s.timerFire.isNone then
    leadingEdge cfg op s time
  else if isInvoking && cfg.maxing then
    invokeFunc op { s with timerFire := some (time + cfg.wait) } time
  else if s.timerFire.isNone then
    ⟨{ s with timerFire := some (time + cfg.wait) }, s.result, []⟩
  else
    ⟨s, s.result, []⟩

/-- Discrete-event execution with the fixed-delay backend: interleave a
time-sorted list of calls to `debounced` with the armed wake-up, firing
the wake-up first whenever it is due no later than the next call.  Fuel
bounds the number of processed events; the accumulated trace lists every
invocation of `op`. -/
def run (cfg : Config) (op : Option Args → Ret) :
    Nat → DState Args Ret → List (Int × Args) → List (Int × Option Args) →
      DState Args Ret × List (Int × Option Args)
  | 0, s, _, tr => (s, tr)
  | Nat.succ fuel, s, calls, tr =>
      match s.timerFire, calls with
      | some f, [] =>
          let o := timerExpired cfg op s f
          run cfg op fuel o.state [] (tr ++ o.invs)
      | some f, (t, a) :: cs =>
          if f ≤ t then
            let o := timerExpired cfg op s f
            run cfg op fuel o.state ((t, a) :: cs) (tr ++ o.invs)
          else
            let o := debounced cfg op s t a
            run cfg op fuel o.state cs (tr ++ o.invs)
      | none, [] => (s, tr)
      | none, (t, a) :: cs =>
          let o := debounced cfg op s t a
          run cfg op fuel o.state cs (tr ++ o.invs)

/-- The configuration of the first concrete scenario of the spec:
`delayMs = 100`, `leading = false`, `trailing = true`, no `maxWaitMs`. -/
def cfgPlain : Config := ⟨100, false, false, 0, true⟩

/-- Construction (utils.js lines 156-177).  The `func` argument as the
host language sees it: either an invocable function or some other value
(`typeof func !== "function"`). -/
inductive JSValue (Args Ret : Type) where
  | func (f : Option Args → Ret)
  | notFunc
deriving Inhabited

/-- The only error `debounce` raises at construction: the
`TypeError("Expected a function")` of line 168, the spec's
`InvalidTarget`. -/
inductive DebounceError where
  | invalidTarget
deriving DecidableEq

/-- The recognized option fields; an absent field models a key missing
from the options object. -/
structure Options where
  leading : Option Bool := none
  maxWait : Option Int := none
  trailing : Option Bool := none

/-- A constructed debounced function: the backend selector, the derived
configuration, the wrapped operation and the initial closure state. -/
structure Debounced (Args Ret : Type) where
  useRAF : Bool
  cfg : Config
  op : Option Args → Ret
  st : DState Args Ret

/-- Lines 156-177 (`debounce`): backend selection, the invocable check,
`timeToWait`, and option parsing.  `+options.maxWait || 0` maps every
integer to itself (it only turns `NaN` and `0` into `0`), so the clamp is
`max maxWait timeToWait`; an absent `options` object leaves the
defaults. -/
def debounce (func : JSValue Args Ret) (wait : Option Int) (options : Option Options)
    (rafAvailable : Bool) : Except DebounceError (Debounced Args Ret) :=
  let useRAF := wait.isNone && rafAvailable
  match func with
  | .notFunc => .error .invalidTarget
  | .func f =>
      let timeToWait := wait.getD 0
      match options with
      | some o =>
          let leading := o.leading.getD false
          let maxing := o.maxWait.isSome
          let maxWait := if maxing then max (o.maxWait.getD 0) timeToWait else 0
          let trailing := o.trailing.getD true
          .ok ⟨useRAF, ⟨timeToWait, leading, maxing, maxWait, trailing⟩, f, initState⟩
      | none =>
          .ok ⟨useRAF, ⟨timeToWait, false, false, 0, true⟩, f, initState⟩

/-- Host timer pool shared by `setTimeout` and `requestAnimationFrame`:
the handles of scheduled wake-ups that have not yet fired, and a counter
producing fresh handles. -/
structure TimerPool where
  outstanding : List Nat
  next : Nat
deriving DecidableEq

/-- A host `setTimeout` or `requestAnimationFrame` request: registers a
fresh handle. -/
def scheduleWakeup (p : TimerPool) : TimerPool × Nat :=
  (⟨p.outstanding ++ [p.next], p.next + 1⟩, p.next)

/-- A host `clearTimeout` or `cancelAnimationFrame` with a possibly
undefined handle: drops the handle if it is outstanding, otherwise does
nothing. -/
def cancelWakeup (p : TimerPool) (h : Option Nat) : TimerPool :=
  ⟨p.outstanding.filter (fun x => decide (some x ≠ h)), p.next⟩

/-- Lines 191-200 (`startTimer`): with the frame-aligned backend, first
`cancelAnimationFrame(timerId)` and then request a frame; with the
fixed-delay backend, call `setTimeout` directly — the outstanding handle
is not cancelled on that path. -/
def startTimer (useRAF : Bool) (p : TimerPool) (timerId : Option Nat) : TimerPool × Nat :=
  if useRAF then scheduleWakeup (cancelWakeup p timerId)
  else scheduleWakeup p

/-- The default configuration with `maxWaitMs = 100` next to
`delayMs = 100` (a legal configuration: the ceiling equals the delay). -/
def cfgCeil : Config := ⟨100, false, true, 100, true⟩

/-- C1: with `delayMs = 100`, `leading = false`, `trailing = true` and no
`maxWaitMs`, calls at times 0, 30 and 60 with argument bundles A, B and C
produce exactly one invocation of `op`, with arguments C, at time 160;
the wake-up at time 100 performs no invocation and re-arms the timer for
time 160 (the remaining 60 ms of quiet period). -/
theorem c1_burst_trailing_only (γ δ : Type) (op : Option γ → δ) (A B C : γ) :
    (run cfgPlain op 8 initState [(0, A), (30, B), (60, C)] []).2 = [(160, some C)] ∧
    (timerExpired cfgPlain op
        (debounced cfgPlain op
          (debounced cfgPlain op
            (debounced cfgPlain op initState 0 A).state 30 B).state 60 C).state 100).invs = [] ∧
    (timerExpired cfgPlain op
        (debounced cfgPlain op
          (debounced cfgPlain op
            (debounced cfgPlain op initState 0 A).state 30 B).state 60 C).state
        100).state.timerFire = some 160 :=
  ⟨rfl, rfl, rfl⟩

/-- C2 counterexample: with `delayMs = 100`, `maxWaitMs = 100` (a legal
ceiling, equal to the delay) and the default edges, the calls at times
0, 99, 198, 297 are all spaced 99 ms apart — strictly less than
`delayMs` — yet the code invokes `op` at times 100 and 297: the second
invocation comes 197 ms after the first, exceeding the `maxWaitMs`
ceiling of 100 ms.  The burst restart at time 198 does not reset the
stale `lastCallTime`, so no leading edge runs and the ceiling slips. -/
theorem c2_counterexample :
    (run cfgCeil (fun a => a.getD 0) 10 initState [(0, 1), (99, 2), (198, 3), (297, 4)] []).2 =
        [(100, some 2), (297, some 4)] ∧
      (100 : Int) + 100 < 297 := by
  exact ⟨rfl, by norm_num⟩

/-- C3 counterexample: `cancel` does not leave `lastInvokeTime`
unchanged — from a state with `lastInvokeTime = 5` it resets it to 0
(line 267 of utils.js). -/
theorem c3_counterexample :
    (cancel (⟨some 1, some 42, some 100, some 60, 5⟩ : DState Nat Nat)).state.lastInvokeTime ≠
      5 := by
  decide

/-- C3 amended: `cancel` resets `lastCallTime`, `pendingArgs` and the
timer to absent and additionally resets `lastInvokeTime` to 0 (its
initial epoch value); only `lastResult` is left unchanged, and `op` is
invoked zero times. -/
theorem c3_cancel_resets (s : DState Args Ret) :
    cancel s = ⟨⟨none, s.result, none, none, 0⟩, none, []⟩ := rfl

/-- C4 counterexample: a re-scheduling step on the fixed-delay backend
does not cancel the outstanding handle.  With handle 7 outstanding and
`timerId = 7`, `startTimer` leaves two outstanding wake-ups. -/
theorem c4_counterexample :
    (startTimer false ⟨[7], 8⟩ (some 7)).1.outstanding = [7, 8] ∧
      (startTimer false ⟨[7], 8⟩ (some 7)).1.outstanding.length = 2 := by
  decide

/-- C4 amended: only the frame-aligned backend cancels the outstanding
handle before requesting a new one — when the single outstanding handle
is the current `timerId`, re-scheduling through `requestAnimationFrame`
leaves exactly the fresh handle outstanding.  The fixed-delay path calls
`setTimeout` without clearing the previous timeout, so a re-scheduling
step that runs while a handle is outstanding (the tight-loop re-arm of
line 295, or any arming after `flush`) leaves more than one outstanding
wake-up, as the counterexample shows. -/
theorem c4_raf_cancels (p : TimerPool) (h : Nat) (hp : p.outstanding = [h]) :
    (startTimer true p (some h)).1.outstanding = [p.next] := by
  simp [startTimer, scheduleWakeup, cancelWakeup, hp]

/-- C4 amended, witness. -/
theorem c4_raf_cancels_witness :
    (startTimer true ⟨[7], 8⟩ (some 7)).1.outstanding = [8] :=
  c4_raf_cancels ⟨[7], 8⟩ 7 rfl

/-- C5 counterexample: the trailing edge does not clear `lastCallTime`.
From a pending state with `lastCallTime = 60`, the wake-up at time 160
satisfies the invoke-now predicate, invokes `op`, yet leaves
`lastCallTime = some 60` (lines 251-262 never touch it). -/
theorem c5_counterexample :
    shouldInvoke cfgPlain (⟨some 2, none, some 100, some 60, 0⟩ : DState Nat Nat) 160 = true ∧
      (timerExpired cfgPlain (fun a => a.getD 0)
          (⟨some 2, none, some 100, some 60, 0⟩ : DState Nat Nat) 160).state.lastCallTime ≠
        none := by
  decide

/-- C5 amended: whenever the wake-up handler fires and the invoke-now
predicate holds, the timer handle is discarded and `pendingArgs` is
cleared, while `lastCallTime` is retained (not cleared); if `trailing`
is true and `pendingArgs` was present, `op` is invoked once with
`pendingArgs` and `lastInvokeTime` is updated to the wake-up time,
otherwise no invocation happens and `lastInvokeTime` and the stored
result stay as they were. -/
theorem c5_trailing_edge (cfg : Config) (op : Option Args → Ret) (s : DState Args Ret) (t : Int)
    (h : shouldInvoke cfg s t = true) :
    (timerExpired cfg op s t).state.timerFire = none ∧
    (timerExpired cfg op s t).state.lastArgs = none ∧
    (timerExpired cfg op s t).state.lastCallTime = s.lastCallTime ∧
    (cfg.trailing = true → s.lastArgs.isSome = true →
      (timerExpired cfg op s t).invs = [(t, s.lastArgs)] ∧
        (timerExpired cfg op s t).state.lastInvokeTime = t) ∧
    (cfg.trailing = false ∨ s.lastArgs = none →
      (timerExpired cfg op s t).invs = [] ∧
        (timerExpired cfg op s t).state.lastInvokeTime = s.lastInvokeTime ∧
        (timerExpired cfg op s t).state.result = s.result) := by
  cases hT : cfg.trailing <;> cases hA : s.lastArgs <;>
    simp [timerExpired, h, trailingEdge, invokeFunc, hT, hA]

/-- C5 amended, witness: the pending state of the counterexample, at
wake-up time 160. -/
theorem c5_trailing_edge_witness :
    (timerExpired cfgPlain (fun a => a.getD 0)
        (⟨some 2, none, some 100, some 60, 0⟩ : DState Nat Nat) 160).state.timerFire = none ∧
      (timerExpired cfgPlain (fun a => a.getD 0)
          (⟨some 2, none, some 100, some 60, 0⟩ : DState Nat Nat) 160).invs =
        [(160, some 2)] := by
  have h := c5_trailing_edge cfgPlain (fun a => a.getD 0)
    (⟨some 2, none, some 100, some 60, 0⟩ : DState Nat Nat) 160 (by decide)
  exact ⟨h.1, (h.2.2.2.1 rfl rfl).1⟩

/-- C6 counterexample: with `delayMs = 100` and `maxWaitMs = 50` the
construction does not fail — it returns a debounced function whose
configuration has been adjusted to `maxWait = 100`
(`Math.max(+options.maxWait || 0, timeToWait)`, line 175). -/
theorem c6_counterexample :
    (debounce (.func (fun a => a.getD 0) : JSValue Nat Nat) (some 100)
          (some ⟨none, some 50, none⟩) false).toOption.map (fun d => d.cfg) =
      some ⟨100, false, true, 100, true⟩ := rfl

/-- C6 amended: supplying `maxWaitMs` strictly below `delayMs` is not
rejected; `create` succeeds and clamps the ceiling up to `delayMs`, so
the constructed configuration satisfies `maxWait = delayMs`. -/
theorem c6_maxwait_clamped (f : Option Args → Ret) (mw w : Int) (lopt topt : Option Bool)
    (raf : Bool) (h : mw < w) :
    (debounce (.func f) (some w) (some ⟨lopt, some mw, topt⟩) raf).toOption.map (fun d => d.cfg) =
      some ⟨w, lopt.getD false, true, w, topt.getD true⟩ := by
  have hm : max mw w = w := max_eq_right h.le
  simp [debounce, Except.toOption, hm]

/-- C6 amended, witness. -/
theorem c6_maxwait_clamped_witness :
    (debounce (.func (fun a => a.getD 0) : JSValue Nat Nat) (some 100)
          (some ⟨none, some 50, none⟩) true).toOption.map (fun d => d.cfg) =
      some ⟨100, false, true, 100, true⟩ :=
  c6_maxwait_clamped (fun a => a.getD 0) 50 100 none none true (by norm_num)

/-- C7: `flush` in the idle state returns the stored result and changes
nothing; in the pending state it performs the trailing-edge logic at the
flush time, invoking `op` with the pending arguments exactly when
`trailing` is true and pending arguments are present (returning the new
result), and otherwise returning the old result — in all pending cases
the machine is left idle. -/
theorem c7_flush (cfg : Config) (op : Option Args → Ret) (s : DState Args Ret) (now : Int) :
    (s.timerFire = none → flush cfg op s now = ⟨s, s.result, []⟩) ∧
    (s.timerFire ≠ none →
      (flush cfg op s now).state.timerFire = none ∧
      (cfg.trailing = true → s.lastArgs.isSome = true →
        (flush cfg op s now).invs = [(now, s.lastArgs)] ∧
          (flush cfg op s now).ret = some (op s.lastArgs)) ∧
      (cfg.trailing = false ∨ s.lastArgs = none →
        (flush cfg op s now).invs = [] ∧ (flush cfg op s now).ret = s.result)) := by
  cases hF : s.timerFire <;> cases hT : cfg.trailing <;> cases hA : s.lastArgs <;>
    simp [flush, trailingEdge, invokeFunc, hF, hT, hA]

/-- C7 witness: an idle state and a pending state, flushed at time 50. -/
theorem c7_flush_witness :
    flush cfgPlain (fun a => a.getD 0) (⟨none, some 9, none, none, 0⟩ : DState Nat Nat) 50 =
        ⟨⟨none, some 9, none, none, 0⟩, some 9, []⟩ ∧
      (flush cfgPlain (fun a => a.getD 0)
          (⟨some 3, some 9, some 100, some 20, 0⟩ : DState Nat Nat) 50).invs =
        [(50, some 3)] := by
  refine ⟨(c7_flush cfgPlain (fun a => a.getD 0) ⟨none, some 9, none, none, 0⟩ 50).1 rfl, ?_⟩
  have h := c7_flush cfgPlain (fun a => a.getD 0)
    (⟨some 3, some 9, some 100, some 20, 0⟩ : DState Nat Nat) 50
  exact ((h.2 (by simp)).2.1 rfl rfl).1

/-- C8: a call at time t that arrives in the pending state (timer armed,
`lastCallTime` set, with the call inside the quiet period of the
previous one, as every pending state reached with an on-time timer is)
invokes `op` immediately if and only if `maxWaitMs` is configured and
`t - lastInvokeTime` has reached the ceiling; when it does, the trailing
timer is re-armed for `delayMs` and `lastInvokeTime` is updated to t. -/
theorem c8_pending_immediate (cfg : Config) (op : Option Args → Ret) (s : DState Args Ret)
    (t : Int) (a : Args) (f lct : Int) (hf : s.timerFire = some f)
    (hl : s.lastCallTime = some lct) (h1 : lct ≤ t) (h2 : t - lct < cfg.wait) :
    ((debounced cfg op s t a).invs ≠ [] ↔
      cfg.maxing = true ∧ cfg.maxWait ≤ t - s.lastInvokeTime) ∧
    (cfg.maxing = true → cfg.maxWait ≤ t - s.lastInvokeTime →
      (debounced cfg op s t a).invs = [(t, some a)] ∧
        (debounced cfg op s t a).state.timerFire = some (t + cfg.wait) ∧
        (debounced cfg op s t a).state.lastInvokeTime = t) := by
  have hw : ¬ (cfg.wait ≤ t - lct) := by omega
  have hneg : ¬ (t - lct < 0) := by omega
  have hsi : shouldInvoke cfg s t =
      (cfg.maxing && decide (cfg.maxWait ≤ t - s.lastInvokeTime)) := by
    simp [shouldInvoke, hl, hw, hneg]
  cases hM : cfg.maxing <;>
    cases hC : decide (cfg.maxWait ≤ t - s.lastInvokeTime) <;>
      simp_all [debounced, invokeFunc, hf, decide_eq_true_eq]

/-- C8 witness: pending state with the ceiling reached. -/
theorem c8_pending_immediate_witness :
    (debounced cfgCeil (fun a => a.getD 0)
        (⟨some 2, none, some 298, some 198, 100⟩ : DState Nat Nat) 297 4).invs =
      [(297, some 4)] := by
  have h := c8_pending_immediate cfgCeil (fun a => a.getD 0)
    (⟨some 2, none, some 298, some 198, 100⟩ : DState Nat Nat) 297 4 298 198 rfl rfl
    (by norm_num) (by decide)
  exact (h.2 rfl (by decide)).1

/-- C10: every call to the debounced front end returns a value: the
fresh result of `op` applied to the arguments of this call when the call
itself triggers a synchronous invocation (leading edge or the tight-loop
`maxWait` branch), and otherwise the stored result of the most recent
prior invocation (`none` models the absent result before any
invocation). -/
theorem c10_return_value (cfg : Config) (op : Option Args → Ret) (s : DState Args Ret) (t : Int)
    (a : Args) :
    ((debounced cfg op s t a).invs = [] → (debounced cfg op s t a).ret = s.result) ∧
    ((debounced cfg op s t a).invs ≠ [] → (debounced cfg op s t a).ret = some (op (some a))) := by
  cases hSI : shouldInvoke cfg s t <;> cases hF : s.timerFire <;> cases hL : cfg.leading <;>
    cases hM : cfg.maxing <;>
      simp [debounced, leadingEdge, invokeFunc, hSI, hF, hL, hM]

/-- C10 witness: a call that triggers the leading edge. -/
theorem c10_return_value_witness :
    (debounced (⟨100, true, false, 0, true⟩ : Config) (fun a => a.getD 0) initState 0 7).ret =
      some 7 := by
  have h := c10_return_value (⟨100, true, false, 0, true⟩ : Config) (fun a => a.getD 0)
    initState 0 7
  exact h.2 (by decide)

/-- C9: whenever the `op` argument is not an invocable function,
`debounce` fails with the invalid-target error (the TypeError of line
168) for every wait value, every options object and either backend,
returning no scheduler state. -/
theorem c9_invalid_target (wait : Option Int) (options : Option Options) (raf : Bool) :
    debounce (JSValue.notFunc : JSValue Args Ret) wait options raf =
      .error .invalidTarget := rfl

/-!
Characterisation of the two event handlers, one lemma per reachable
branch, used by the maxWait ceiling proof below.
-/

theorem shouldInvoke_inrange (cfg : Config) (s : DState Args Ret) (t lct : Int)
    (hl : s.lastCallTime = some lct) (h1 : lct ≤ t) (h2 : t - lct < cfg.wait) :
    shouldInvoke cfg s t = (cfg.maxing && decide (cfg.maxWait ≤ t - s.lastInvokeTime)) := by
  have e1 : decide (cfg.wait ≤ t - lct) = false := by simp; omega
  have e2 : decide (t - lct < 0) = false := by simp; omega
  simp only [shouldInvoke, hl, e1, e2, Bool.false_or]

theorem debounced_lead_invoke (cfg : Config) (op : Option Args → Ret) (s : DState Args Ret)
    (t : Int) (a : Args) (h1 : shouldInvoke cfg s t = true) (h2 : s.timerFire = none)
    (h3 : cfg.leading = true) :
    debounced cfg op s t a =
      ⟨⟨none, some (op (some a)), some (t + cfg.wait), some t, t⟩, some (op (some a)),
        [(t, some a)]⟩ := by
  simp [debounced, leadingEdge, invokeFunc, h1, h2, h3]

theorem debounced_lead_quiet (cfg : Config) (op : Option Args → Ret) (s : DState Args Ret)
    (t : Int) (a : Args) (h1 : shouldInvoke cfg s t = true) (h2 : s.timerFire = none)
    (h3 : cfg.leading = false) :
    debounced cfg op s t a =
      ⟨⟨some a, s.result, some (t + cfg.wait), some t, t⟩, s.result, []⟩ := by
  simp [debounced, leadingEdge, h1, h2, h3]

theorem debounced_tight_loop (cfg : Config) (op : Option Args → Ret) (s : DState Args Ret)
    (t : Int) (a : Args) (f : Int) (h1 : shouldInvoke cfg s t = true)
    (h2 : s.timerFire = some f) (h3 : cfg.maxing = true) :
    debounced cfg op s t a =
      ⟨⟨none, some (op (some a)), some (t + cfg.wait), some t, t⟩, some (op (some a)),
        [(t, some a)]⟩ := by
  simp [debounced, invokeFunc, h1, h2, h3]

theorem debounced_arm (cfg : Config) (op : Option Args → Ret) (s : DState Args Ret)
    (t : Int) (a : Args) (h1 : shouldInvoke cfg s t = false) (h2 : s.timerFire = none) :
    debounced cfg op s t a =
      ⟨⟨some a, s.result, some (t + cfg.wait), some t, s.lastInvokeTime⟩, s.result, []⟩ := by
  simp [debounced, h1, h2]

theorem debounced_keep (cfg : Config) (op : Option Args → Ret) (s : DState Args Ret)
    (t : Int) (a : Args) (f : Int) (h1 : shouldInvoke cfg s t = false)
    (h2 : s.timerFire = some f) :
    debounced cfg op s t a =
      ⟨⟨some a, s.result, some f, some t, s.lastInvokeTime⟩, s.result, []⟩ := by
  simp [debounced, h1, h2]

theorem timerExpired_rearm (cfg : Config) (op : Option Args → Ret) (s : DState Args Ret)
    (f : Int) (h1 : shouldInvoke cfg s f = false) :
    timerExpired cfg op s f =
      ⟨⟨s.lastArgs, s.result, some (f + remainingWait cfg s f), s.lastCallTime,
        s.lastInvokeTime⟩, none, []⟩ := by
  simp [timerExpired, h1]

theorem timerExpired_trail_invoke (cfg : Config) (op : Option Args → Ret) (s : DState Args Ret)
    (f : Int) (x : Args) (h1 : shouldInvoke cfg s f = true) (h2 : cfg.trailing = true)
    (h3 : s.lastArgs = some x) :
    timerExpired cfg op s f =
      ⟨⟨none, some (op (some x)), none, s.lastCallTime, f⟩, some (op (some x)),
        [(f, some x)]⟩ := by
  simp [timerExpired, trailingEdge, invokeFunc, h1, h2, h3]

theorem timerExpired_trail_skip (cfg : Config) (op : Option Args → Ret) (s : DState Args Ret)
    (f : Int) (h1 : shouldInvoke cfg s f = true) (h3 : s.lastArgs = none) :
    timerExpired cfg op s f =
      ⟨⟨none, s.result, none, s.lastCallTime, s.lastInvokeTime⟩, s.result, []⟩ := by
  simp [timerExpired, trailingEdge, h1, h3]

theorem chain'_head_rel {γ : Type} {R : γ → γ → Prop} {x : γ} {l : List γ}
    (h : List.Chain' R (x :: l)) : ∀ c ∈ l.head?, R x c := by
  cases l with
  | nil => simp
  | cons c l2 =>
      intro d hd
      simp only [List.head?] at hd
      cases hd
      exact (List.chain'_cons.mp h).1

theorem chain'_concat {γ : Type} {R : γ → γ → Prop} {l : List γ} {x : γ}
    (h : List.Chain' R l) (hx : ∀ p ∈ l.getLast?, R p x) : List.Chain' R (l ++ [x]) := by
  rw [List.chain'_append]
  refine ⟨h, List.chain'_singleton x, ?_⟩
  intro p hp y hy
  simp only [List.head?] at hy
  cases hy
  exact hx p hp

theorem shouldInvoke_false_facts (cfg : Config) (s : DState Args Ret) (time lct : Int)
    (hmax : cfg.maxing = true) (hl : s.lastCallTime = some lct)
    (h : shouldInvoke cfg s time = false) :
    time - lct < cfg.wait ∧ 0 ≤ time - lct ∧ time - s.lastInvokeTime < cfg.maxWait := by
  simp only [shouldInvoke, hl, hmax, Bool.true_and, Bool.or_eq_false_iff,
    decide_eq_false_iff_not, not_le, not_lt] at h
  omega

/-- Premises on the configuration under which the `maxWait` ceiling does
bound the distance between invocations: the ceiling is configured, the
trailing edge is on, the delay is non-negative and the ceiling is at
least `2*wait - 1` (the construction always guarantees `wait ≤ maxWait`;
the counterexample above shows that `maxWait < 2*wait - 1` breaks the
bound). -/
structure CfgOk (cfg : Config) : Prop where
  hmaxing : cfg.maxing = true
  htrailing : cfg.trailing = true
  hwait : 0 ≤ cfg.wait
  hwaitLe : cfg.wait ≤ cfg.maxWait
  htwoWait : 2 * cfg.wait - 1 ≤ cfg.maxWait

/-- Inductive invariant of the discrete-event execution, for a
configuration satisfying `CfgOk` and a call list whose consecutive calls
are strictly increasing and less than `wait` apart: the armed wake-up
never lies beyond `lastInvokeTime + maxWait`, it stays within `wait` of
the last recorded call, the trace gaps are bounded by `maxWait`, and the
book-keeping fields agree with the trace. -/
structure Inv (cfg : Config) (s : DState Args Ret) (calls : List (Int × Args))
    (tr : List (Int × Option Args)) : Prop where
  callChain : List.Chain' (fun a b => a.1 < b.1 ∧ b.1 < a.1 + cfg.wait) calls
  trChain : List.Chain' (fun p q => q.1 ≤ p.1 + cfg.maxWait) tr
  lastLink : ∀ p ∈ tr.getLast?, s.lastInvokeTime = p.1
  fireCeil : ∀ f, s.timerFire = some f → f ≤ s.lastInvokeTime + cfg.maxWait
  fireCall : ∀ f, s.timerFire = some f →
    ∃ lct, s.lastCallTime = some lct ∧ lct ≤ f ∧ f ≤ lct + cfg.wait
  callGap : ∀ lct, s.lastCallTime = some lct → ∀ c ∈ calls.head?,
    lct < c.1 ∧ c.1 < lct + cfg.wait
  idleLink : s.timerFire = none →
    s.lastCallTime = none ∨ calls = [] ∨
      ∃ lct, s.lastCallTime = some lct ∧ lct ≤ s.lastInvokeTime
  freshness : ∀ f, s.timerFire = some f → s.lastArgs = none → ∀ c ∈ calls.head?, c.1 < f
  virgin : s.lastCallTime = none → tr = [] ∧ s.lastArgs = none ∧ s.timerFire = none

theorem inv_after_call_invoke (cfg : Config) (r : Option Ret) (t : Int) (a : Args)
    (cs : List (Int × Args)) (tr : List (Int × Option Args)) (hcfg : CfgOk cfg)
    (hcs : List.Chain' (fun a b => a.1 < b.1 ∧ b.1 < a.1 + cfg.wait) cs)
    (hhead : ∀ c ∈ cs.head?, t < c.1 ∧ c.1 < t + cfg.wait)
    (htc : List.Chain' (fun p q => q.1 ≤ p.1 + cfg.maxWait) tr)
    (hlast : ∀ p ∈ tr.getLast?, t ≤ p.1 + cfg.maxWait) :
    Inv cfg (⟨none, r, some (t + cfg.wait), some t, t⟩ : DState Args Ret) cs
      (tr ++ [(t, some a)]) := by
  refine ⟨hcs, chain'_concat htc hlast, ?_, ?_, ?_, ?_, ?_, ?_, ?_⟩
  · intro p hp
    rw [List.getLast?_concat] at hp
    cases hp
    rfl
  · intro f hf
    simp only [Option.some.injEq] at hf
    dsimp only
    have := hcfg.hwaitLe
    omega
  · intro f hf
    simp only [Option.some.injEq] at hf
    exact ⟨t, rfl, by have := hcfg.hwait; omega, by omega⟩
  · intro lct hl c hc
    simp only [Option.some.injEq] at hl
    subst hl
    exact hhead c hc
  · intro h
    simp at h
  · intro f hf _ c hc
    simp only [Option.some.injEq] at hf
    have := hhead c hc
    omega
  · intro h
    simp at h

theorem inv_after_call_quiet (cfg : Config) (r : Option Ret) (t F li : Int) (a : Args)
    (cs : List (Int × Args)) (tr : List (Int × Option Args)) (_hcfg : CfgOk cfg)
    (hcs : List.Chain' (fun a b => a.1 < b.1 ∧ b.1 < a.1 + cfg.wait) cs)
    (hhead : ∀ c ∈ cs.head?, t < c.1 ∧ c.1 < t + cfg.wait)
    (htc : List.Chain' (fun p q => q.1 ≤ p.1 + cfg.maxWait) tr)
    (hll : ∀ p ∈ tr.getLast?, li = p.1)
    (hFceil : F ≤ li + cfg.maxWait) (hFlow : t ≤ F) (hFhigh : F ≤ t + cfg.wait) :
    Inv cfg (⟨some a, r, some F, some t, li⟩ : DState Args Ret) cs tr := by
  refine ⟨hcs, htc, hll, ?_, ?_, ?_, ?_, ?_, ?_⟩
  · intro f hf
    simp only [Option.some.injEq] at hf
    dsimp only
    omega
  · intro f hf
    simp only [Option.some.injEq] at hf
    exact ⟨t, rfl, by omega, by omega⟩
  · intro lct hl c hc
    simp only [Option.some.injEq] at hl
    subst hl
    exact hhead c hc
  · intro h
    simp at h
  · intro f _ hla
    simp at hla
  · intro h
    simp at h

theorem inv_debounced (cfg : Config) (op : Option Args → Ret) (s : DState Args Ret)
    (t : Int) (a : Args) (cs : List (Int × Args)) (tr : List (Int × Option Args))
    (hcfg : CfgOk cfg) (hInv : Inv cfg s ((t, a) :: cs) tr)
    (hbefore : ∀ f, s.timerFire = some f → t < f) :
    Inv cfg (debounced cfg op s t a).state cs (tr ++ (debounced cfg op s t a).invs) := by
  have hcs : List.Chain' (fun a b => a.1 < b.1 ∧ b.1 < a.1 + cfg.wait) cs :=
    hInv.callChain.tail
  have hhead : ∀ c ∈ cs.head?, t < c.1 ∧ c.1 < t + cfg.wait :=
    chain'_head_rel hInv.callChain
  cases hTF : s.timerFire with
  | none =>
      cases hLC : s.lastCallTime with
      | none =>
          obtain ⟨htr0, _, _⟩ := hInv.virgin hLC
          have hsi : shouldInvoke cfg s t = true := by simp [shouldInvoke, hLC]
          cases hLead : cfg.leading with
          | true =>
              rw [debounced_lead_invoke cfg op s t a hsi hTF hLead]
              exact inv_after_call_invoke cfg _ t a cs tr hcfg hcs hhead hInv.trChain
                (by rw [htr0]; simp)
          | false =>
              rw [debounced_lead_quiet cfg op s t a hsi hTF hLead]
              rw [List.append_nil]
              exact inv_after_call_quiet cfg _ t (t + cfg.wait) t a cs tr hcfg hcs hhead
                hInv.trChain (by rw [htr0]; simp) (by have := hcfg.hwaitLe; omega)
                (by have := hcfg.hwait; omega) le_rfl
      | some lct =>
          rcases hInv.idleLink hTF with h | h | ⟨lct2, hl2, hle2⟩
          · rw [hLC] at h; cases h
          · cases h
          · rw [hLC] at hl2
            cases hl2
            have hg := hInv.callGap lct hLC (t, a) rfl
            have hsi : shouldInvoke cfg s t = false := by
              rw [shouldInvoke_inrange cfg s t lct hLC (by omega) (by omega)]
              have : ¬ (cfg.maxWait ≤ t - s.lastInvokeTime) := by
                have := hcfg.hwaitLe
                omega
              simp [this]
            rw [debounced_arm cfg op s t a hsi hTF]
            rw [List.append_nil]
            refine inv_after_call_quiet cfg _ t (t + cfg.wait) s.lastInvokeTime a cs tr hcfg
              hcs hhead hInv.trChain hInv.lastLink ?_ (by have := hcfg.hwait; omega) le_rfl
            have := hcfg.htwoWait
            omega
  | some f =>
      obtain ⟨lct, hLC, hlf, hfw⟩ := hInv.fireCall f hTF
      have hg := hInv.callGap lct hLC (t, a) rfl
      have htf : t < f := hbefore f hTF
      have hsi0 : shouldInvoke cfg s t =
          (cfg.maxing && decide (cfg.maxWait ≤ t - s.lastInvokeTime)) :=
        shouldInvoke_inrange cfg s t lct hLC (by omega) (by omega)
      by_cases hC : cfg.maxWait ≤ t - s.lastInvokeTime
      · have hsi : shouldInvoke cfg s t = true := by
          rw [hsi0, hcfg.hmaxing]
          simp [hC]
        rw [debounced_tight_loop cfg op s t a f hsi hTF hcfg.hmaxing]
        refine inv_after_call_invoke cfg _ t a cs tr hcfg hcs hhead hInv.trChain ?_
        intro p hp
        have := hInv.lastLink p hp
        have := hInv.fireCeil f hTF
        omega
      · have hsi : shouldInvoke cfg s t = false := by
          rw [hsi0, hcfg.hmaxing]
          simp [hC]
        rw [debounced_keep cfg op s t a f hsi hTF]
        rw [List.append_nil]
        exact inv_after_call_quiet cfg _ t f s.lastInvokeTime a cs tr hcfg hcs hhead
          hInv.trChain hInv.lastLink (hInv.fireCeil f hTF) (by omega) (by omega)

theorem inv_timer (cfg : Config) (op : Option Args → Ret) (s : DState Args Ret) (f : Int)
    (calls : List (Int × Args)) (tr : List (Int × Option Args))
    (hcfg : CfgOk cfg) (hInv : Inv cfg s calls tr) (hf : s.timerFire = some f)
    (hdue : ∀ c ∈ calls.head?, f ≤ c.1) :
    Inv cfg (timerExpired cfg op s f).state calls (tr ++ (timerExpired cfg op s f).invs) := by
  obtain ⟨lct, hLC, hlf, hfw⟩ := hInv.fireCall f hf
  have hceil := hInv.fireCeil f hf
  cases hsi : shouldInvoke cfg s f with
  | false =>
      obtain ⟨hA, hB, hC⟩ := shouldInvoke_false_facts cfg s f lct hcfg.hmaxing hLC hsi
      rw [timerExpired_rearm cfg op s f hsi]
      rw [List.append_nil]
      have hrw : remainingWait cfg s f =
          min (cfg.wait - (f - lct)) (cfg.maxWait - (f - s.lastInvokeTime)) := by
        simp [remainingWait, hLC, hcfg.hmaxing]
      have hmin1 : remainingWait cfg s f ≤ cfg.wait - (f - lct) := by
        rw [hrw]; exact min_le_left _ _
      have hmin2 : remainingWait cfg s f ≤ cfg.maxWait - (f - s.lastInvokeTime) := by
        rw [hrw]; exact min_le_right _ _
      have hpos : 1 ≤ remainingWait cfg s f := by
        rw [hrw]
        have h1 : 1 ≤ cfg.wait - (f - lct) := by omega
        have h2 : 1 ≤ cfg.maxWait - (f - s.lastInvokeTime) := by omega
        omega
      refine ⟨hInv.callChain, hInv.trChain, ?_, ?_, ?_, ?_, ?_, ?_, ?_⟩
      · intro p hp
        exact hInv.lastLink p hp
      · intro g hg
        simp only [Option.some.injEq] at hg
        dsimp only
        omega
      · intro g hg
        simp only [Option.some.injEq] at hg
        exact ⟨lct, hLC, by omega, by omega⟩
      · intro lct2 hl2 c hc
        exact hInv.callGap lct2 hl2 c hc
      · intro h
        simp at h
      · intro g hg hla c hc
        simp only [Option.some.injEq] at hg
        have := hInv.freshness f hf hla c hc
        omega
      · intro h
        dsimp only at h
        rw [hLC] at h
        cases h
  | true =>
      cases hLA : s.lastArgs with
      | some x =>
          rw [timerExpired_trail_invoke cfg op s f x hsi hcfg.htrailing hLA]
          refine ⟨hInv.callChain, ?_, ?_, ?_, ?_, ?_, ?_, ?_, ?_⟩
          · refine chain'_concat hInv.trChain ?_
            intro p hp
            have := hInv.lastLink p hp
            omega
          · intro p hp
            rw [List.getLast?_concat] at hp
            cases hp
            rfl
          · intro g hg
            simp at hg
          · intro g hg
            simp at hg
          · intro lct2 hl2 c hc
            exact hInv.callGap lct2 hl2 c hc
          · intro _
            right; right
            exact ⟨lct, hLC, by dsimp only; omega⟩
          · intro g hg
            simp at hg
          · intro h
            dsimp only at h
            rw [hLC] at h
            cases h
      | none =>
          have hnil : calls = [] := by
            cases calls with
            | nil => rfl
            | cons c cs =>
                have h1 := hInv.freshness f hf hLA c rfl
                have h2 := hdue c rfl
                omega
          rw [timerExpired_trail_skip cfg op s f hsi hLA]
          rw [List.append_nil]
          refine ⟨hInv.callChain, hInv.trChain, ?_, ?_, ?_, ?_, ?_, ?_, ?_⟩
          · intro p hp
            exact hInv.lastLink p hp
          · intro g hg
            simp at hg
          · intro g hg
            simp at hg
          · intro lct2 hl2 c hc
            rw [hnil] at hc
            simp at hc
          · intro _
            right; left
            exact hnil
          · intro g hg
            simp at hg
          · intro h
            dsimp only at h
            rw [hLC] at h
            cases h

theorem inv_initial (cfg : Config) (calls : List (Int × Args))
    (hgaps : List.Chain' (fun a b => a.1 < b.1 ∧ b.1 < a.1 + cfg.wait) calls) :
    Inv cfg (initState : DState Args Ret) calls [] := by
  refine ⟨hgaps, List.chain'_nil, ?_, ?_, ?_, ?_, ?_, ?_, ?_⟩
  · intro p hp
    simp at hp
  · intro f hf
    simp [initState] at hf
  · intro f hf
    simp [initState] at hf
  · intro lct hl
    simp [initState] at hl
  · intro _
    exact Or.inl rfl
  · intro f hf
    simp [initState] at hf
  · intro _
    exact ⟨rfl, rfl, rfl⟩

theorem inv_run (cfg : Config) (op : Option Args → Ret) (hcfg : CfgOk cfg) :
    ∀ (fuel : Nat) (s : DState Args Ret) (calls : List (Int × Args))
      (tr : List (Int × Option Args)), Inv cfg s calls tr →
      List.Chain' (fun p q => q.1 ≤ p.1 + cfg.maxWait) (run cfg op fuel s calls tr).2 := by
  intro fuel
  induction fuel with
  | zero =>
      intro s calls tr h
      exact h.trChain
  | succ n ih =>
      intro s calls tr h
      cases hTF : s.timerFire with
      | none =>
          cases calls with
          | nil =>
              simp only [run, hTF]
              exact h.trChain
          | cons c cs =>
              obtain ⟨t, a⟩ := c
              simp only [run, hTF]
              refine ih _ _ _ (inv_debounced cfg op s t a cs tr hcfg h ?_)
              intro f hx
              rw [hTF] at hx
              cases hx
      | some f =>
          cases calls with
          | nil =>
              simp only [run, hTF]
              refine ih _ _ _ (inv_timer cfg op s f [] tr hcfg h hTF ?_)
              intro c hc
              simp at hc
          | cons c cs =>
              obtain ⟨t, a⟩ := c
              by_cases hle : f ≤ t
              · simp only [run, hTF, if_pos hle]
                refine ih _ _ _ (inv_timer cfg op s f ((t, a) :: cs) tr hcfg h hTF ?_)
                intro c hc
                simp only [List.head?] at hc
                cases hc
                exact hle
              · simp only [run, hTF, if_neg hle]
                refine ih _ _ _ (inv_debounced cfg op s t a cs tr hcfg h ?_)
                intro g hx
                rw [hTF] at hx
                cases hx
                omega

/-- C2 amended: provided `trailing` is true and the configured ceiling
satisfies `maxWaitMs ≥ 2*delayMs - 1` (the counterexample above shows the
bound fails below that, already for the legal `maxWaitMs = delayMs`), for
every finite sequence of calls that is strictly increasing in time with
consecutive calls spaced less than `delayMs` apart, consecutive
invocations of `op` in the resulting execution are at most `maxWaitMs`
milliseconds apart; and a call arriving while the machine is pending
(timer armed, last call within the quiet period) with
`t - lastInvokeTime ≥ maxWaitMs` triggers an immediate invocation of
`op` with the arguments of that call. -/
theorem c2_maxwait_ceiling (cfg : Config) (op : Option Args → Ret) (fuel : Nat)
    (calls : List (Int × Args)) (hmax : cfg.maxing = true) (htrail : cfg.trailing = true)
    (hw : 0 ≤ cfg.wait) (hwm : cfg.wait ≤ cfg.maxWait)
    (h2w : 2 * cfg.wait - 1 ≤ cfg.maxWait)
    (hgaps : List.Chain' (fun a b => a.1 < b.1 ∧ b.1 < a.1 + cfg.wait) calls) :
    List.Chain' (fun p q => q.1 ≤ p.1 + cfg.maxWait)
        (run cfg op fuel initState calls []).2 ∧
      (∀ (s : DState Args Ret) (t : Int) (a : Args) (f lct : Int), s.timerFire = some f →
        s.lastCallTime = some lct → lct ≤ t → t - lct < cfg.wait →
        cfg.maxWait ≤ t - s.lastInvokeTime →
        (debounced cfg op s t a).invs = [(t, some a)]) := by
  refine ⟨inv_run cfg op ⟨hmax, htrail, hw, hwm, h2w⟩ fuel initState calls []
    (inv_initial cfg calls hgaps), ?_⟩
  intro s t a f lct hf hl h1 h2 hC
  have hsi : shouldInvoke cfg s t = true := by
    rw [shouldInvoke_inrange cfg s t lct hl h1 h2, hmax]
    simp [hC]
  rw [debounced_tight_loop cfg op s t a f hsi hf hmax]

/-- C2 amended, witness: the spec scenario configuration `delayMs = 100`,
`maxWaitMs = 250`, calls every 40 ms. -/
theorem c2_maxwait_ceiling_witness :
    List.Chain' (fun p q => q.1 ≤ p.1 + (⟨100, false, true, 250, true⟩ : Config).maxWait)
      (run (⟨100, false, true, 250, true⟩ : Config) (fun a => a.getD 0) 20 initState
        [((0 : Int), (1 : Nat)), (40, 2), (80, 3)] []).2 :=
  (c2_maxwait_ceiling ⟨100, false, true, 250, true⟩ (fun a => a.getD 0) 20
    [(0, 1), (40, 2), (80, 3)] rfl rfl (by decide) (by decide) (by decide)
    (by norm_num [List.chain'_cons, List.chain'_singleton])).1

end DebounceSpec
